import Mathlib

/-!
The periodic job scheduler of src/looper.go.

A shallow embedding of `looper.go`.  The Go program is concurrent: `Start`
spawns one goroutine per entry (`startJob`) and `Stop` spawns one goroutine
that waits on the `sync.WaitGroup`.  The embedding is an interleaving
semantics: the state of the process is a `World`, every atomic move of the
caller or of a goroutine is an `Action`, and `step` is the (executable)
transition function.  `run` folds `step` over a schedule.

Time is added on top of `step` by `tstep`: a move carries the instant at which
it is made, and the only constraint of the clock is that the channel of
`time.After(d)` delivers no earlier than `d` after the call.
-/

namespace GoLooper

/-! ## Jobs and entries -/

/-- How one invocation `f(l.ctx)` of a job ends: it returns, it panics with a
value `r` (rendered with `%v`) while the goroutine stack dump is `stack`, or
it ends the goroutine it runs on with `runtime.Goexit()`.  A panic always
carries a non-nil value (`panic(nil)` is turned into a
`*runtime.PanicNilError` by the Go runtime).  A job that never returns is a
RUNNING loop whose `jobEnds` move is never made. -/
inductive Outcome where
  | returned
  | panicked (r : String) (stack : List Nat)
  | exited
  deriving DecidableEq, Repr

/-- A job `func(ctx context.Context)`.  The first argument is the state of the
context it is handed (`true` when `l.ctx` is already cancelled), the second the
ordinal of the invocation within its timing loop (`1` for the first one), which
stands for whatever private state the closure keeps between invocations. -/
abbrev Job := Bool → Nat → Outcome

/-- The Go struct `Entry`: `Spec` is a `time.Duration` (a signed number of
nanoseconds), `Job` the function to run. -/
structure Entry where
  Spec : Int
  Job : Job

/-- The Go struct `Looper`.  The pair `ctx`/`cancel` is represented by the
flag `done` (`true` once `cancel` has been called, i.e. `ctx.Done()` is
closed); `jobWaiter` is the counter of the `sync.WaitGroup`. -/
structure Looper where
  done : Bool
  entries : List Entry
  jobWaiter : Int

/-! ## Goroutines and the process state -/

/-- Control states of the goroutine running `startJob`: blocked in the
`select` (WAITING), inside `runWithRecovery` (RUNNING), returned, the deferred
`jobWaiter.Done()` executed (TERMINATED). -/
inductive LoopState where
  | WAITING
  | RUNNING
  | TERMINATED
  deriving DecidableEq, Repr

/-- The goroutine `go l.startJob(entry)`: its entry, its control state and the
number of times it has invoked the job so far. -/
structure Loop where
  entry : Entry
  state : LoopState
  fired : Nat

/-- One line written by `log.Printf("looper: panic running job: %v\n%s", r, buf)`:
the panic value and the stack buffer. -/
structure Report where
  r : String
  buf : List Nat
  deriving DecidableEq, Repr

/-- The whole process: the `Looper` value, the timing loops spawned by `Start`
(in spawn order), the contexts returned by `Stop` (in call order, `true` when
the context is cancelled; each has one waiter goroutine), the lines sent to
the logger, and the value of a panic that escaped a goroutine (which kills a
Go process). -/
structure World where
  l : Looper
  loops : List Loop
  handles : List Bool
  log : List Report
  crashed : Option String

/-! ## The functions of looper.go -/

/-- The constructor `New()`: a fresh context, no entries, a zero WaitGroup. -/
def New : World :=
  { l := { done := false, entries := [], jobWaiter := 0 }
    loops := []
    handles := []
    log := []
    crashed := none }

/-- The method `(l *Looper) AddFunc(spec, cmd)`: `l.entries = append(l.entries, entry)`. -/
def AddFunc (l : Looper) (spec : Int) (cmd : Job) : Looper :=
  let entry : Entry := { Spec := spec, Job := cmd }
  { l with entries := l.entries ++ [entry] }

/-- The body of the `for _, entry := range l.entries` loop of `Start`:
`l.jobWaiter.Add(1)` followed by `go l.startJob(entry)`.  The new goroutine is
about to evaluate its first `select`. -/
def spawn (w : World) (entry : Entry) : World :=
  { w with
    l := { w.l with jobWaiter := w.l.jobWaiter + 1 }
    loops := w.loops ++ [{ entry := entry, state := LoopState.WAITING, fired := 0 }] }

/-- The method `(l *Looper) Start()`: ranges once over `l.entries`. -/
def Start (w : World) : World :=
  w.l.entries.foldl spawn w

/-- The constant `size = 64 << 10` of `runWithRecovery`. -/
def size : Nat := 64 <<< 10

/-- The method `(l *Looper) runWithRecovery(f)`: calls `f(l.ctx)` under a deferred
function that calls `recover()`.  When `recover()` yields a non-nil value the
stack is dumped into a buffer of `size` bytes (`runtime.Stack` fills at most
`len(buf)` bytes) and one line is logged.  During `runtime.Goexit()` the
deferred function runs too, `recover()` yields nil, nothing is logged and the
goroutine goes on exiting.  The result is how `runWithRecovery` itself ends,
and the log. -/
def runWithRecovery (f : Job) (ctx : Bool) (n : Nat) (log : List Report) :
    Outcome × List Report :=
  match f ctx n with
  | Outcome.returned => (Outcome.returned, log)
  | Outcome.panicked r stack =>
      let buf := stack.take size
      (Outcome.returned, log ++ [{ r := r, buf := buf }])
  | Outcome.exited => (Outcome.exited, log)

/-- The method `(l *Looper) Stop()`: creates a fresh context, spawns the goroutine that
will cancel it after `l.jobWaiter.Wait()`, calls `l.cancel()` and returns the
context.  The second component is the index of the returned context. -/
def Stop (w : World) : World × Nat :=
  ({ w with
     handles := w.handles ++ [false]
     l := { w.l with done := true } },
   w.handles.length)

/-! ## Atomic moves -/

/-- The moves of the caller (`addFunc`, `start`, `stop`) and of the goroutines:
the timer case of the `select` of loop `i` is taken and the job is invoked
(`timerFires`), the invocation of loop `i` is over (`jobEnds`), the
`ctx.Done()` case of loop `i` is taken (`observeDone`), the goroutine of the
`h`-th `Stop` gets past `Wait()` and cancels its context (`waiter`). -/
inductive Action where
  | addFunc (spec : Int) (cmd : Job)
  | start
  | stop
  | timerFires (i : Nat)
  | jobEnds (i : Nat)
  | observeDone (i : Nat)
  | waiter (h : Nat)

/-- The case `<-time.After(entry.Spec)` is taken by loop `i` and the job is
invoked.  Go picks at random among the cases of a `select` that can proceed,
so the timer case can be taken whether or not `ctx.Done()` is closed; whether
the timer has delivered is a matter of time, left open here and constrained
by `tstep`. -/
def timerFires (w : World) (i : Nat) : Option World :=
  match w.loops[i]? with
  | none => none
  | some lp =>
    if lp.state = LoopState.WAITING then
      some { w with loops := w.loops.set i { lp with state := LoopState.RUNNING, fired := lp.fired + 1 } }
    else none

/-- The call `l.jobWaiter.Done()`, i.e. `Add(-1)`: a WaitGroup whose counter would
become negative panics. -/
def jobWaiterDone (c : Int) : Option Int :=
  if c - 1 < 0 then none else some (c - 1)

/-- Loop `i` leaves `startJob`: the goroutine becomes TERMINATED and the
deferred `l.jobWaiter.Done()` runs.  `escaped` is the panic, if any, that is
unwinding the goroutine. -/
def exitLoop (w : World) (i : Nat) (lp : Loop) (escaped : Option String) : World :=
  let loops := w.loops.set i { lp with state := LoopState.TERMINATED }
  match jobWaiterDone w.l.jobWaiter with
  | some c => { w with loops := loops, l := { w.l with jobWaiter := c }, crashed := escaped }
  | none => { w with loops := loops, crashed := some "sync: negative WaitGroup counter" }

/-- The call `l.runWithRecovery(entry.Job)` of loop `i` is over.  When it
returned, the `for` loop goes round to the `select` again; were it to panic,
the panic would unwind `startJob`; when the job called `runtime.Goexit()` the
goroutine ends, running the deferred `l.jobWaiter.Done()`. -/
def jobEnds (w : World) (i : Nat) : Option World :=
  match w.loops[i]? with
  | none => none
  | some lp =>
    if lp.state = LoopState.RUNNING then
      match runWithRecovery lp.entry.Job w.l.done lp.fired w.log with
      | (Outcome.returned, log) =>
          some { w with loops := w.loops.set i { lp with state := LoopState.WAITING }, log := log }
      | (Outcome.panicked r _, log) =>
          some (exitLoop { w with log := log } i lp (some r))
      | (Outcome.exited, log) =>
          some (exitLoop { w with log := log } i lp none)
    else none

/-- The case `<-l.ctx.Done(): return` is taken by loop `i`. -/
def observeDone (w : World) (i : Nat) : Option World :=
  match w.loops[i]? with
  | none => none
  | some lp =>
    if lp.state = LoopState.WAITING ∧ w.l.done = true then
      some (exitLoop w i lp none)
    else none

/-- The goroutine of the `h`-th `Stop`: `l.jobWaiter.Wait()` returns when the
counter is zero, then `cancel()` marks the context done. -/
def waiter (w : World) (h : Nat) : Option World :=
  match w.handles[h]? with
  | none => none
  | some signaled =>
    if signaled = false ∧ w.l.jobWaiter = 0 then
      some { w with handles := w.handles.set h true }
    else none

/-- The three kinds of move of the goroutine running `startJob`: the timer
case of its `select` proceeds, its call of `runWithRecovery` is over, the
`ctx.Done()` case of its `select` proceeds. -/
inductive LoopEvent where
  | timer
  | jobOver
  | ctxDone

/-- The function `(l *Looper) startJob(entry)`, run by loop `i`, one move at a
time: `for { select { case <-l.ctx.Done(): return; case <-time.After(entry.Spec):
l.runWithRecovery(entry.Job) } }` under `defer l.jobWaiter.Done()`. -/
def startJob (w : World) (i : Nat) : LoopEvent → Option World
  | LoopEvent.timer => timerFires w i
  | LoopEvent.jobOver => jobEnds w i
  | LoopEvent.ctxDone => observeDone w i

/-- One atomic move of a live process; `none` when the move is not enabled. -/
def act (w : World) : Action → Option World
  | Action.addFunc spec cmd => some { w with l := AddFunc w.l spec cmd }
  | Action.start => some (Start w)
  | Action.stop => some (Stop w).1
  | Action.timerFires i => startJob w i LoopEvent.timer
  | Action.jobEnds i => startJob w i LoopEvent.jobOver
  | Action.observeDone i => startJob w i LoopEvent.ctxDone
  | Action.waiter h => waiter w h

/-- One atomic move; a process killed by an escaped panic makes none. -/
def step (w : World) (a : Action) : Option World :=
  match w.crashed with
  | some _ => none
  | none => act w a

/-- A schedule: the moves are made in order; `none` when one is not enabled. -/
def run (w : World) : List Action → Option World
  | [] => some w
  | a :: rest =>
    match step w a with
    | none => none
    | some w1 => run w1 rest

/-- The control states of the timing loops, in spawn order. -/
def states (w : World) : List LoopState :=
  w.loops.map (fun lp => lp.state)

/-- Number of timing loops that have not terminated. -/
def liveLoops (loops : List Loop) : Nat :=
  loops.countP (fun lp => decide (lp.state ≠ LoopState.TERMINATED))

/-- A schedule without a call of `Start`. -/
def noStart : List Action → Bool
  | [] => true
  | Action.start :: _ => false
  | _ :: rest => noStart rest

/-- A job that returns at every invocation. -/
def okJob : Job := fun _ _ => Outcome.returned

/-- A job that panics at every invocation. -/
def badJob : Job := fun _ _ => Outcome.panicked "boom" [1, 2, 3]

/-- A job that calls `runtime.Goexit()` at every invocation. -/
def exitJob : Job := fun _ _ => Outcome.exited

/-! ## Notions used in the statements and proofs -/

/-- The loop spawned for an entry. -/
def freshLoop (entry : Entry) : Loop :=
  { entry := entry, state := LoopState.WAITING, fired := 0 }

/-- The barrier invariant: no panic has escaped and the WaitGroup counter is
the number of timing loops that have not terminated. -/
def Inv (w : World) : Prop :=
  w.crashed = none ∧ w.l.jobWaiter = (liveLoops w.loops : Int)

/-- The moves as a relation: `Moved w a w'` lists, move by move, what `act`
does when it is enabled. -/
inductive Moved (w : World) : Action → World → Prop where
  | addFunc (spec : Int) (cmd : Job) :
      Moved w (Action.addFunc spec cmd) { w with l := AddFunc w.l spec cmd }
  | start : Moved w Action.start (Start w)
  | stop : Moved w Action.stop (Stop w).1
  | fire (i : Nat) (lp : Loop) (hl : w.loops[i]? = some lp)
      (h : lp.state = LoopState.WAITING) :
      Moved w (Action.timerFires i)
        { w with
          loops := w.loops.set i { lp with state := LoopState.RUNNING, fired := lp.fired + 1 } }
  | finish (i : Nat) (lp : Loop) (hl : w.loops[i]? = some lp)
      (h : lp.state = LoopState.RUNNING)
      (hj : lp.entry.Job w.l.done lp.fired ≠ Outcome.exited) :
      Moved w (Action.jobEnds i)
        { w with
          loops := w.loops.set i { lp with state := LoopState.WAITING }
          log := (runWithRecovery lp.entry.Job w.l.done lp.fired w.log).2 }
  | quit (i : Nat) (lp : Loop) (hl : w.loops[i]? = some lp)
      (h : lp.state = LoopState.RUNNING)
      (hj : lp.entry.Job w.l.done lp.fired = Outcome.exited) :
      Moved w (Action.jobEnds i) (exitLoop w i lp none)
  | leave (i : Nat) (lp : Loop) (hl : w.loops[i]? = some lp)
      (h : lp.state = LoopState.WAITING) (hd : w.l.done = true) :
      Moved w (Action.observeDone i) (exitLoop w i lp none)
  | wake (h : Nat) (hh : w.handles[h]? = some false) (hz : w.l.jobWaiter = 0) :
      Moved w (Action.waiter h) { w with handles := w.handles.set h true }

/-- The change of the WaitGroup counter a move is expected to make: `Start`
adds one per entry, a loop that exits subtracts one (it takes the
`ctx.Done()` case, or its job ends the goroutine), nothing else touches it. -/
def barrierDelta (w : World) : Action → Int
  | Action.start => (w.l.entries.length : Int)
  | Action.observeDone _ => -1
  | Action.jobEnds i =>
    match w.loops[i]? with
    | some lp =>
      match lp.entry.Job w.l.done lp.fired with
      | Outcome.exited => -1
      | _ => 0
    | none => 0
  | _ => 0

/-! ## The clock -/

/-- The times kept for one timing loop, in nanoseconds since `New`: `born`,
the instant of its `go` statement in `Start`, and `armed`, the earliest
instant at which the `time.After(entry.Spec)` of its current `select` can have
been evaluated: the instant of the `go` statement, then the instant its last
call of `runWithRecovery` was over. -/
structure LoopClock where
  born : Nat
  armed : Nat
  deriving DecidableEq, Repr

/-- A process with a clock: the untimed state, the current instant and the
clocks of the timing loops, in spawn order. -/
structure Clocked where
  w : World
  now : Nat
  clocks : List LoopClock

/-- The process `New()` returns, at instant `0`. -/
def clockedNew : Clocked :=
  { w := New, now := 0, clocks := [] }

/-- The clocks after a move made at instant `t`: `Start` spawns its loops at
`t`; a loop whose call of `runWithRecovery` is over goes round to the `select`
and evaluates `time.After(entry.Spec)` again, at `t` at the earliest. -/
def clocksAfter (s : Clocked) (t : Nat) : Action → List LoopClock
  | Action.start =>
    s.clocks ++ List.replicate s.w.l.entries.length { born := t, armed := t }
  | Action.jobEnds i =>
    match s.clocks[i]? with
    | some c => s.clocks.set i { c with armed := t }
    | none => s.clocks
  | _ => s.clocks

/-- What the clock allows at instant `t`: the channel of `time.After(d)`
delivers no earlier than `d` after the call, so the timer case of loop `i`
cannot be taken before `armed + entry.Spec`; it can be taken at any later
instant (the goroutine may be scheduled late).  No other move is constrained. -/
def timerReady (s : Clocked) (t : Nat) : Action → Bool
  | Action.timerFires i =>
    match s.w.loops[i]?, s.clocks[i]? with
    | some lp, some c => decide ((c.armed : Int) + lp.entry.Spec ≤ (t : Int))
    | _, _ => false
  | _ => true

/-- One timed move at instant `t`: time does not run backwards; `none` as the
move lets time pass until `t`; otherwise the move is `step`, allowed by the
clock. -/
def tstep (s : Clocked) (t : Nat) (a : Option Action) : Option Clocked :=
  if t < s.now then none
  else
    match a with
    | none => some { s with now := t }
    | some a =>
      if timerReady s t a then
        match step s.w a with
        | none => none
        | some w1 => some { w := w1, now := t, clocks := clocksAfter s t a }
      else none

/-- A timed schedule: moves with their instants, made in order. -/
def trun (s : Clocked) : List (Nat × Option Action) → Option Clocked
  | [] => some s
  | (t, a) :: rest =>
    match tstep s t a with
    | none => none
    | some s1 => trun s1 rest

/-- The untimed schedule of a timed one. -/
def moves (ts : List (Nat × Option Action)) : List Action :=
  ts.filterMap (fun x => x.2)

/-- The firing counts of the timing loops, in spawn order. -/
def firedCounts (w : World) : List Nat :=
  w.loops.map (fun lp => lp.fired)

/-- The clock invariant: every timing loop has a clock, and for a loop with a
positive interval the firings so far, one interval each, fit between its
`go` statement and now, and while it is WAITING between its `go` statement
and the instant its timer was armed. -/
def ClockInv (s : Clocked) : Prop :=
  s.clocks.length = s.w.loops.length ∧
  ∀ (j : Nat) (lp : Loop) (c : LoopClock),
    s.w.loops[j]? = some lp → s.clocks[j]? = some c → 0 < lp.entry.Spec →
      (lp.fired : Int) * lp.entry.Spec + c.born ≤ s.now ∧
      (lp.state = LoopState.WAITING →
        (lp.fired : Int) * lp.entry.Spec + c.born ≤ c.armed)

/-- A job that takes 30 at every invocation, registered with interval 10 and
started at instant 0: the timer is taken at 11, 52 and 93 (one late each
time), the invocations are over at 41 and 82, and time then passes until 100
without a shutdown. -/
def slowSchedule : List (Nat × Option Action) :=
  [(0, some (Action.addFunc 10 okJob)), (0, some Action.start),
   (11, some (Action.timerFires 0)), (41, some (Action.jobEnds 0)),
   (52, some (Action.timerFires 0)), (82, some (Action.jobEnds 0)),
   (93, some (Action.timerFires 0)), (100, none)]

/-- The state at the end of `slowSchedule`: instant 100, three firings, the
third invocation still RUNNING. -/
def slowEnd : Clocked :=
  { w := { l := { done := false, entries := [{ Spec := 10, Job := okJob }], jobWaiter := 1 }
           loops := [{ entry := { Spec := 10, Job := okJob }, state := LoopState.RUNNING,
                       fired := 3 }]
           handles := []
           log := []
           crashed := none }
    now := 100
    clocks := [{ born := 0, armed := 82 }] }

/-- The run `AddFunc(5, job); AddFunc(7, job); Start(); Stop()` with `Stop`
called at instant 1, before either interval has elapsed, and the timer case
of the second loop taken at instant 9. -/
def lateSchedule : List (Nat × Option Action) :=
  [(0, some (Action.addFunc 5 okJob)), (0, some (Action.addFunc 7 okJob)),
   (0, some Action.start), (1, some Action.stop), (9, some (Action.timerFires 1))]

/-- The continuation of `lateSchedule` to the end of the shutdown: the invocation
is over at instant 12, both loops take the `ctx.Done()` case, and the waiter
of the `Stop` cancels the handle. -/
def lateDrain : List (Nat × Option Action) :=
  [(12, some (Action.jobEnds 1)), (12, some (Action.observeDone 1)),
   (13, some (Action.observeDone 0)), (14, some (Action.waiter 0))]

/-- The run `AddFunc(20, exitJob); AddFunc(3000, okJob); Start()` up to the
first invocation of the first job; `Stop` is not called. -/
def goexitSchedule : List Action :=
  [Action.addFunc 20 exitJob, Action.addFunc 3000 okJob, Action.start, Action.timerFires 0]

/-! ## Concrete runs -/

/-- Two registered entries, `Start` not called: the state after
`AddFunc(5, badJob)` and `AddFunc(7, okJob)`. -/
def demoRegistered : World :=
  { l := { done := false
           entries := [{ Spec := 5, Job := badJob }, { Spec := 7, Job := okJob }]
           jobWaiter := 0 }
    loops := []
    handles := []
    log := []
    crashed := none }

/-- The state after `Start` on `demoRegistered` and the first firing of the
first loop: its job, which panics, is RUNNING for the first time. -/
def demoRunning : World :=
  { l := { done := false
           entries := [{ Spec := 5, Job := badJob }, { Spec := 7, Job := okJob }]
           jobWaiter := 2 }
    loops := [{ entry := { Spec := 5, Job := badJob }, state := LoopState.RUNNING, fired := 1 },
              { entry := { Spec := 7, Job := okJob }, state := LoopState.WAITING, fired := 0 }]
    handles := []
    log := []
    crashed := none }

/-- The state after the panicking invocation of `demoRunning` is over, `Stop`,
the exit of both loops and the move of the waiter: handle `0` is signaled. -/
def demoDrained : World :=
  { l := { done := true
           entries := [{ Spec := 5, Job := badJob }, { Spec := 7, Job := okJob }]
           jobWaiter := 0 }
    loops := [{ entry := { Spec := 5, Job := badJob }, state := LoopState.TERMINATED, fired := 1 },
              { entry := { Spec := 7, Job := okJob }, state := LoopState.TERMINATED, fired := 0 }]
    handles := [true]
    log := [{ r := "boom", buf := [1, 2, 3] }]
    crashed := none }

/-- The schedule that leads from `New` to `demoRegistered`. -/
def demoSetup : List Action :=
  [Action.addFunc 5 badJob, Action.addFunc 7 okJob]

/-- The schedule that leads from `Start` on `demoRegistered` to `demoDrained`. -/
def demoShutdown : List Action :=
  [Action.timerFires 0, Action.jobEnds 0, Action.stop, Action.observeDone 1,
   Action.observeDone 0, Action.waiter 0]

/-! ## Lemmas -/

theorem foldl_spawn (es : List Entry) (w : World) :
    es.foldl spawn w =
      { w with
        l := { w.l with jobWaiter := w.l.jobWaiter + es.length }
        loops := w.loops ++ es.map freshLoop } := by
  induction es generalizing w with
  | nil => simp
  | cons e es ih =>
    simp only [List.foldl_cons, ih, spawn, freshLoop, List.map_cons, List.length_cons,
      List.append_assoc, List.singleton_append, Nat.cast_add, Nat.cast_one]
    congr 2
    omega

theorem Start_eq (w : World) :
    Start w =
      { w with
        l := { w.l with jobWaiter := w.l.jobWaiter + w.l.entries.length }
        loops := w.loops ++ w.l.entries.map freshLoop } := by
  unfold Start
  exact foldl_spawn w.l.entries w

theorem runWithRecovery_eq (f : Job) (ctx : Bool) (n : Nat) (log : List Report) :
    runWithRecovery f ctx n log =
      match f ctx n with
      | Outcome.returned => (Outcome.returned, log)
      | Outcome.panicked r stack => (Outcome.returned, log ++ [{ r := r, buf := stack.take size }])
      | Outcome.exited => (Outcome.exited, log) := by
  unfold runWithRecovery
  cases f ctx n <;> rfl

theorem jobEnds_eq (w : World) (i : Nat) :
    jobEnds w i =
      match w.loops[i]? with
      | none => none
      | some lp =>
        if lp.state = LoopState.RUNNING then
          match lp.entry.Job w.l.done lp.fired with
          | Outcome.exited => some (exitLoop w i lp none)
          | _ =>
            some { w with
                   loops := w.loops.set i { lp with state := LoopState.WAITING }
                   log := (runWithRecovery lp.entry.Job w.l.done lp.fired w.log).2 }
        else none := by
  unfold jobEnds
  cases hl : w.loops[i]? with
  | none => rfl
  | some lp =>
    simp only
    split
    · rw [runWithRecovery_eq]
      cases lp.entry.Job w.l.done lp.fired <;> rfl
    · rfl

theorem act_moved (w w' : World) (a : Action) (hs : act w a = some w') : Moved w a w' := by
  cases a with
  | addFunc spec cmd =>
    simp only [act, Option.some.injEq] at hs
    subst hs
    exact Moved.addFunc spec cmd
  | start =>
    simp only [act, Option.some.injEq] at hs
    subst hs
    exact Moved.start
  | stop =>
    simp only [act, Option.some.injEq] at hs
    subst hs
    exact Moved.stop
  | timerFires i =>
    simp only [act, startJob] at hs
    unfold timerFires at hs
    cases hl : w.loops[i]? with
    | none => simp [hl] at hs
    | some lp =>
      simp only [hl] at hs
      split at hs
      · rename_i hg
        simp only [Option.some.injEq] at hs
        subst hs
        exact Moved.fire i lp hl hg
      · simp at hs
  | jobEnds i =>
    simp only [act, startJob] at hs
    rw [jobEnds_eq] at hs
    cases hl : w.loops[i]? with
    | none => simp [hl] at hs
    | some lp =>
      simp only [hl] at hs
      split at hs
      · rename_i hg
        cases hj : lp.entry.Job w.l.done lp.fired with
        | exited =>
          simp only [hj, Option.some.injEq] at hs
          subst hs
          exact Moved.quit i lp hl hg hj
        | returned =>
          simp only [hj, Option.some.injEq] at hs
          subst hs
          exact Moved.finish i lp hl hg (by simp [hj])
        | panicked r stack =>
          simp only [hj, Option.some.injEq] at hs
          subst hs
          exact Moved.finish i lp hl hg (by simp [hj])
      · simp at hs
  | observeDone i =>
    simp only [act, startJob] at hs
    unfold observeDone at hs
    cases hl : w.loops[i]? with
    | none => simp [hl] at hs
    | some lp =>
      simp only [hl] at hs
      split at hs
      · rename_i hg
        simp only [Option.some.injEq] at hs
        subst hs
        exact Moved.leave i lp hl hg.1 hg.2
      · simp at hs
  | waiter h =>
    simp only [act] at hs
    unfold waiter at hs
    cases hl : w.handles[h]? with
    | none => simp [hl] at hs
    | some b =>
      simp only [hl] at hs
      split at hs
      · rename_i hg
        simp only [Option.some.injEq] at hs
        subst hs
        rw [hg.1] at hl
        exact Moved.wake h hl hg.2
      · simp at hs

theorem liveLoops_append (xs ys : List Loop) :
    liveLoops (xs ++ ys) = liveLoops xs + liveLoops ys := by
  simp [liveLoops, List.countP_append]

theorem liveLoops_fresh (es : List Entry) : liveLoops (es.map freshLoop) = es.length := by
  induction es with
  | nil => rfl
  | cons e es ih =>
    simp only [liveLoops, List.map_cons, List.length_cons] at ih ⊢
    rw [List.countP_cons_of_pos]
    · omega
    · simp [freshLoop]

/-- Replacing a live loop by a live loop keeps the number of live loops. -/
theorem liveLoops_set_live (loops : List Loop) (i : Nat) (lp lp' : Loop)
    (h : loops[i]? = some lp) (hl : lp.state ≠ LoopState.TERMINATED)
    (hl' : lp'.state ≠ LoopState.TERMINATED) :
    liveLoops (loops.set i lp') = liveLoops loops := by
  induction loops generalizing i with
  | nil => simp at h
  | cons x xs ih =>
    cases i with
    | zero =>
      simp only [List.getElem?_cons_zero, Option.some.injEq] at h
      subst h
      simp [liveLoops, List.countP_cons, hl, hl']
    | succ j =>
      simp only [List.getElem?_cons_succ] at h
      have := ih j h
      simp only [liveLoops, List.set_cons_succ, List.countP_cons] at this ⊢
      omega

/-- Replacing a live loop by a terminated one removes one live loop. -/
theorem liveLoops_set_dead (loops : List Loop) (i : Nat) (lp lp' : Loop)
    (h : loops[i]? = some lp) (hl : lp.state ≠ LoopState.TERMINATED)
    (hl' : lp'.state = LoopState.TERMINATED) :
    liveLoops (loops.set i lp') + 1 = liveLoops loops := by
  induction loops generalizing i with
  | nil => simp at h
  | cons x xs ih =>
    cases i with
    | zero =>
      simp only [List.getElem?_cons_zero, Option.some.injEq] at h
      subst h
      simp [liveLoops, List.countP_cons, hl, hl']
    | succ j =>
      simp only [List.getElem?_cons_succ] at h
      have := ih j h
      simp only [liveLoops, List.set_cons_succ, List.countP_cons] at this ⊢
      omega

theorem liveLoops_eq_zero (loops : List Loop) :
    liveLoops loops = 0 ↔ ∀ lp ∈ loops, lp.state = LoopState.TERMINATED := by
  simp [liveLoops, List.countP_eq_zero]

theorem exitLoop_eq (w : World) (i : Nat) (lp : Loop) (hi : Inv w)
    (h : w.loops[i]? = some lp) (hl : lp.state ≠ LoopState.TERMINATED) :
    exitLoop w i lp none =
      { w with
        loops := w.loops.set i { lp with state := LoopState.TERMINATED }
        l := { w.l with jobWaiter := w.l.jobWaiter - 1 }
        crashed := none } := by
  have hd := liveLoops_set_dead w.loops i lp { lp with state := LoopState.TERMINATED } h hl rfl
  have hw := hi.2
  have hpos : ¬ (w.l.jobWaiter - 1 < 0) := by omega
  simp [exitLoop, jobWaiterDone, hpos]

theorem step_some (w w' : World) (a : Action) (hs : step w a = some w') :
    w.crashed = none ∧ act w a = some w' := by
  unfold step at hs
  cases hc : w.crashed with
  | none =>
    rw [hc] at hs
    exact ⟨rfl, hs⟩
  | some r =>
    rw [hc] at hs
    simp at hs

theorem step_live (w : World) (a : Action) (hc : w.crashed = none) : step w a = act w a := by
  unfold step
  rw [hc]

theorem Inv_New : Inv New := by
  simp [Inv, New, liveLoops]

theorem step_Inv (w w' : World) (a : Action) (hi : Inv w) (hs : step w a = some w') :
    Inv w' := by
  obtain ⟨hc, hw⟩ := hi
  have hm := act_moved w w' a (step_some w w' a hs).2
  cases hm with
  | addFunc spec cmd => exact ⟨hc, hw⟩
  | start =>
    rw [Start_eq]
    refine ⟨hc, ?_⟩
    simp only [liveLoops_append, liveLoops_fresh, hw]
    push_cast
    rfl
  | stop => exact ⟨hc, hw⟩
  | fire i lp hl h =>
    refine ⟨hc, ?_⟩
    simp only
    rw [liveLoops_set_live w.loops i lp _ hl (by simp [h]) (by simp)]
    exact hw
  | finish i lp hl h hj =>
    refine ⟨hc, ?_⟩
    simp only
    rw [liveLoops_set_live w.loops i lp _ hl (by simp [h]) (by simp)]
    exact hw
  | quit i lp hl h hj =>
    have hlive : lp.state ≠ LoopState.TERMINATED := by simp [h]
    rw [exitLoop_eq w i lp ⟨hc, hw⟩ hl hlive]
    refine ⟨rfl, ?_⟩
    have hd := liveLoops_set_dead w.loops i lp { lp with state := LoopState.TERMINATED }
      hl hlive rfl
    simp only
    omega
  | leave i lp hl h hd =>
    have hlive : lp.state ≠ LoopState.TERMINATED := by simp [h]
    rw [exitLoop_eq w i lp ⟨hc, hw⟩ hl hlive]
    refine ⟨rfl, ?_⟩
    have hd := liveLoops_set_dead w.loops i lp { lp with state := LoopState.TERMINATED }
      hl hlive rfl
    simp only
    omega
  | wake h hh hz => exact ⟨hc, hw⟩

theorem run_Inv (w w' : World) (t : List Action) (hi : Inv w) (hr : run w t = some w') :
    Inv w' := by
  induction t generalizing w with
  | nil =>
    simp only [run, Option.some.injEq] at hr
    subst hr
    exact hi
  | cons a t ih =>
    simp only [run] at hr
    cases hs : step w a with
    | none => simp [hs] at hr
    | some w1 =>
      simp only [hs] at hr
      exact ih w1 (step_Inv w w1 a hi hs) hr

theorem step_jobEnds (w : World) (i : Nat) (lp : Loop)
    (hc : w.crashed = none) (hl : w.loops[i]? = some lp)
    (hr : lp.state = LoopState.RUNNING)
    (hj : lp.entry.Job w.l.done lp.fired ≠ Outcome.exited) :
    step w (Action.jobEnds i) =
      some { w with
             loops := w.loops.set i { lp with state := LoopState.WAITING }
             log := (runWithRecovery lp.entry.Job w.l.done lp.fired w.log).2 } := by
  rw [step_live w _ hc]
  simp only [act, startJob]
  rw [jobEnds_eq, hl]
  simp only [hr, if_true]

theorem step_jobEnds_exited (w : World) (i : Nat) (lp : Loop)
    (hc : w.crashed = none) (hl : w.loops[i]? = some lp)
    (hr : lp.state = LoopState.RUNNING)
    (hj : lp.entry.Job w.l.done lp.fired = Outcome.exited) :
    step w (Action.jobEnds i) = some (exitLoop w i lp none) := by
  rw [step_live w _ hc]
  simp only [act, startJob]
  rw [jobEnds_eq, hl]
  simp only [hr, if_true, hj]

theorem exitLoop_loops (w : World) (i : Nat) (lp : Loop) (e : Option String) :
    (exitLoop w i lp e).loops = w.loops.set i { lp with state := LoopState.TERMINATED } := by
  unfold exitLoop
  cases jobWaiterDone w.l.jobWaiter <;> rfl

theorem exitLoop_l (w : World) (i : Nat) (lp : Loop) (e : Option String) :
    (exitLoop w i lp e).l.done = w.l.done ∧ (exitLoop w i lp e).l.entries = w.l.entries ∧
      (exitLoop w i lp e).handles = w.handles ∧ (exitLoop w i lp e).log = w.log := by
  unfold exitLoop
  cases jobWaiterDone w.l.jobWaiter <;> simp

theorem act_loops_length (w w' : World) (a : Action) (hs : act w a = some w')
    (ha : noStart [a] = true) : w'.loops.length = w.loops.length := by
  have hm := act_moved w w' a hs
  cases hm with
  | addFunc spec cmd => rfl
  | start => simp [noStart] at ha
  | stop => rfl
  | fire i lp hl h => simp
  | finish i lp hl h hj => simp
  | quit i lp hl h hj =>
    rw [exitLoop_loops]
    simp
  | leave i lp hl h hd =>
    rw [exitLoop_loops]
    simp
  | wake h hh hz => rfl

theorem act_jobWaiter (w w' : World) (a : Action) (hi : Inv w) (hs : act w a = some w') :
    w'.l.jobWaiter = w.l.jobWaiter + barrierDelta w a := by
  have hm := act_moved w w' a hs
  cases hm with
  | addFunc spec cmd => simp [AddFunc, barrierDelta]
  | start =>
    rw [Start_eq]
    rfl
  | stop => simp [Stop, barrierDelta]
  | fire i lp hl h => simp [barrierDelta]
  | finish i lp hl h hj =>
    simp only [barrierDelta, hl]
    cases hf : lp.entry.Job w.l.done lp.fired with
    | returned => simp
    | panicked r stack => simp
    | exited => exact absurd hf hj
  | quit i lp hl h hj =>
    rw [exitLoop_eq w i lp hi hl (by simp [h])]
    simp only [barrierDelta, hl, hj]
    omega
  | leave i lp hl h hd =>
    rw [exitLoop_eq w i lp hi hl (by simp [h])]
    simp only [barrierDelta]
    omega
  | wake h hh hz => simp [barrierDelta]

theorem barrierDelta_le (w : World) (a : Action) (ha : noStart [a] = true) :
    barrierDelta w a ≤ 0 := by
  cases a with
  | start => simp [noStart] at ha
  | jobEnds i =>
    simp only [barrierDelta]
    cases w.loops[i]? with
    | none => exact Int.le_refl 0
    | some lp =>
      simp only
      cases lp.entry.Job w.l.done lp.fired <;> simp
  | addFunc spec cmd => simp [barrierDelta]
  | stop => simp [barrierDelta]
  | timerFires i => simp [barrierDelta]
  | observeDone i => simp [barrierDelta]
  | waiter h => simp [barrierDelta]

/-- A handle that is signaled after a move was signaled before it, or the
WaitGroup counter was zero. -/
theorem act_handles (w w' : World) (a : Action) (hs : act w a = some w') (h : Nat)
    (hh : w'.handles[h]? = some true) :
    w.handles[h]? = some true ∨ w.l.jobWaiter = 0 := by
  have hm := act_moved w w' a hs
  cases hm with
  | addFunc spec cmd => exact Or.inl hh
  | start =>
    rw [Start_eq] at hh
    exact Or.inl hh
  | stop =>
    left
    simp only [Stop] at hh
    by_cases hlt : h < w.handles.length
    · rw [List.getElem?_append_left hlt] at hh
      exact hh
    · rw [List.getElem?_append_right (by omega)] at hh
      cases hk : h - w.handles.length with
      | zero => simp [hk] at hh
      | succ k => simp [hk] at hh
  | fire i lp hl h1 => exact Or.inl hh
  | finish i lp hl h1 hj => exact Or.inl hh
  | quit i lp hl h1 hj =>
    rw [(exitLoop_l w i lp none).2.2.1] at hh
    exact Or.inl hh
  | leave i lp hl h1 hd =>
    rw [(exitLoop_l w i lp none).2.2.1] at hh
    exact Or.inl hh
  | wake h0 hh0 hz => exact Or.inr hz

theorem run_noStart_loops (w w' : World) (t : List Action) (hn : noStart t = true)
    (hr : run w t = some w') : w'.loops.length = w.loops.length := by
  induction t generalizing w with
  | nil =>
    simp only [run, Option.some.injEq] at hr
    subst hr
    rfl
  | cons a t ih =>
    simp only [run] at hr
    cases hs : step w a with
    | none => simp [hs] at hr
    | some w1 =>
      simp only [hs] at hr
      have ha : noStart [a] = true := by
        cases a <;> simp_all [noStart]
      have ht : noStart t = true := by
        cases a <;> simp_all [noStart]
      rw [ih w1 ht hr]
      exact act_loops_length w w1 a (step_some w w1 a hs).2 ha

/-- A move keeps the registered entries as a leading segment and never
resets the shutdown signal. -/
theorem act_entries_done (w w' : World) (a : Action) (hs : act w a = some w') :
    (∃ es, w'.l.entries = w.l.entries ++ es) ∧ (w.l.done = true → w'.l.done = true) := by
  have hm := act_moved w w' a hs
  cases hm with
  | addFunc spec cmd => exact ⟨⟨_, rfl⟩, fun h => h⟩
  | start =>
    rw [Start_eq]
    exact ⟨⟨[], by simp⟩, fun h => h⟩
  | stop => exact ⟨⟨[], by simp [Stop]⟩, fun _ => rfl⟩
  | fire i lp hl h => exact ⟨⟨[], by simp⟩, fun h => h⟩
  | finish i lp hl h hj => exact ⟨⟨[], by simp⟩, fun h => h⟩
  | quit i lp hl h hj =>
    have he := exitLoop_l w i lp none
    exact ⟨⟨[], by simp [he.2.1]⟩, fun h => by rw [he.1]; exact h⟩
  | leave i lp hl h hd =>
    have he := exitLoop_l w i lp none
    exact ⟨⟨[], by simp [he.2.1]⟩, fun h => by rw [he.1]; exact h⟩
  | wake h hh hz => exact ⟨⟨[], by simp⟩, fun h => h⟩

theorem run_entries_done (w w' : World) (t : List Action) (hr : run w t = some w') :
    (w'.l.entries = [] → w.l.entries = []) ∧ (w.l.done = true → w'.l.done = true) := by
  induction t generalizing w with
  | nil =>
    simp only [run, Option.some.injEq] at hr
    subst hr
    exact ⟨fun h => h, fun h => h⟩
  | cons a t ih =>
    simp only [run] at hr
    cases hs : step w a with
    | none => simp [hs] at hr
    | some w1 =>
      simp only [hs] at hr
      obtain ⟨⟨es, he⟩, hd⟩ := act_entries_done w w1 a (step_some w w1 a hs).2
      obtain ⟨ih1, ih2⟩ := ih w1 hr
      refine ⟨fun h => ?_, fun h => ih2 (hd h)⟩
      have := ih1 h
      rw [he] at this
      exact (List.append_eq_nil.mp this).1

/-- Without entries, or without a call of `Start`, no timing loop exists. -/
theorem run_no_loops (w w' : World) (t : List Action) (h0 : w.loops = [])
    (hr : run w t = some w') (hc : w'.l.entries = [] ∨ noStart t = true) :
    w'.loops = [] := by
  induction t generalizing w with
  | nil =>
    simp only [run, Option.some.injEq] at hr
    subst hr
    exact h0
  | cons a t ih =>
    simp only [run] at hr
    cases hs : step w a with
    | none => simp [hs] at hr
    | some w1 =>
      simp only [hs] at hr
      have hact := (step_some w w1 a hs).2
      by_cases ha : noStart [a] = true
      · have hlen := act_loops_length w w1 a hact ha
        have h1 : w1.loops = [] := List.eq_nil_of_length_eq_zero (by rw [hlen, h0]; rfl)
        refine ih w1 h1 hr ?_
        rcases hc with hc | hc
        · exact Or.inl hc
        · right
          cases a <;> simp_all [noStart]
      · have hst : a = Action.start := by
          cases a <;> simp_all [noStart]
        subst hst
        have hent : w'.l.entries = [] := by
          rcases hc with hc | hc
          · exact hc
          · simp [noStart] at hc
        have h1e : w1.l.entries = [] := (run_entries_done w1 w' t hr).1 hent
        simp only [act, Option.some.injEq] at hact
        have h1 : w1.loops = [] := by
          rw [← hact, Start_eq] at h1e ⊢
          simp only at h1e ⊢
          rw [h0, h1e]
          rfl
        exact ih w1 h1 hr (Or.inl hent)

/-- After `Start`, as long as `Start` is not called again, a handle from
position `k` on that is signaled certifies that no timing loop is live. -/
theorem run_signaled (w w' : World) (t : List Action) (k : Nat) (hi : Inv w)
    (hn : noStart t = true)
    (h0 : ∀ h, k ≤ h → w.handles[h]? = some true → liveLoops w.loops = 0)
    (hr : run w t = some w') :
    ∀ h, k ≤ h → w'.handles[h]? = some true → liveLoops w'.loops = 0 := by
  induction t generalizing w with
  | nil =>
    simp only [run, Option.some.injEq] at hr
    subst hr
    exact h0
  | cons a t ih =>
    simp only [run] at hr
    cases hs : step w a with
    | none => simp [hs] at hr
    | some w1 =>
      simp only [hs] at hr
      have hact := (step_some w w1 a hs).2
      have hi1 := step_Inv w w1 a hi hs
      have ht : noStart t = true := by
        cases a <;> simp_all [noStart]
      refine ih w1 hi1 ht ?_ hr
      intro h hk hh
      have hz : w.l.jobWaiter = 0 := by
        rcases act_handles w w1 a hact h hh with h1 | h1
        · rw [hi.2, h0 h hk h1]
          rfl
        · exact h1
      have hd := act_jobWaiter w w1 a hi hact
      have hle : barrierDelta w a ≤ 0 :=
        barrierDelta_le w a (by cases a <;> simp_all [noStart])
      have h2 := hi1.2
      omega

/-! ## Lemmas on the clock -/

theorem getElem?_lt {α : Type} (xs : List α) (j : Nat) (x : α) (h : xs[j]? = some x) :
    j < xs.length := by
  by_contra hn
  rw [List.getElem?_eq_none (by omega)] at h
  simp at h

theorem getElem?_set_at {α : Type} (xs : List α) (i j : Nat) (x y : α)
    (h : xs[j]? = some y) :
    (xs.set i x)[j]? = some (if i = j then x else y) := by
  have hj := getElem?_lt xs j y h
  by_cases hij : i = j
  · subst hij
    simp [List.getElem?_set_self, hj]
  · simp [List.getElem?_set_ne hij, h, hij]

/-- What a move does to an existing timing loop: it keeps its entry; either its
firing count is unchanged, and it is WAITING afterwards only if it was
WAITING or the move is the end of its invocation, or the move is its timer
case, taken from WAITING, which adds one firing. -/
theorem act_loop (w w' : World) (a : Action) (hs : act w a = some w')
    (j : Nat) (lp : Loop) (hl : w.loops[j]? = some lp) :
    ∃ lp', w'.loops[j]? = some lp' ∧ lp'.entry = lp.entry ∧
      ((lp'.fired = lp.fired ∧
          (lp'.state = LoopState.WAITING →
            lp.state = LoopState.WAITING ∨ a = Action.jobEnds j)) ∨
        (a = Action.timerFires j ∧ lp.state = LoopState.WAITING ∧
          lp'.fired = lp.fired + 1 ∧ lp'.state = LoopState.RUNNING)) := by
  have hm := act_moved w w' a hs
  cases hm with
  | addFunc spec cmd => exact ⟨lp, hl, rfl, Or.inl ⟨rfl, fun h => Or.inl h⟩⟩
  | start =>
    rw [Start_eq]
    refine ⟨lp, ?_, rfl, Or.inl ⟨rfl, fun h => Or.inl h⟩⟩
    simp only
    rw [List.getElem?_append_left (getElem?_lt _ _ _ hl)]
    exact hl
  | stop => exact ⟨lp, hl, rfl, Or.inl ⟨rfl, fun h => Or.inl h⟩⟩
  | fire i lq hq h =>
    refine ⟨_, getElem?_set_at w.loops i j _ lp hl, ?_⟩
    by_cases hij : i = j
    · subst hij
      rw [hq] at hl
      simp only [Option.some.injEq] at hl
      subst hl
      rw [if_pos rfl]
      exact ⟨rfl, Or.inr ⟨rfl, h, rfl, rfl⟩⟩
    · rw [if_neg hij]
      exact ⟨rfl, Or.inl ⟨rfl, fun h => Or.inl h⟩⟩
  | finish i lq hq h hj =>
    refine ⟨_, getElem?_set_at w.loops i j _ lp hl, ?_⟩
    by_cases hij : i = j
    · subst hij
      rw [hq] at hl
      simp only [Option.some.injEq] at hl
      subst hl
      rw [if_pos rfl]
      exact ⟨rfl, Or.inl ⟨rfl, fun _ => Or.inr rfl⟩⟩
    · rw [if_neg hij]
      exact ⟨rfl, Or.inl ⟨rfl, fun h => Or.inl h⟩⟩
  | quit i lq hq h hj =>
    rw [exitLoop_loops]
    refine ⟨_, getElem?_set_at w.loops i j _ lp hl, ?_⟩
    by_cases hij : i = j
    · subst hij
      rw [hq] at hl
      simp only [Option.some.injEq] at hl
      subst hl
      rw [if_pos rfl]
      exact ⟨rfl, Or.inl ⟨rfl, fun _ => Or.inr rfl⟩⟩
    · rw [if_neg hij]
      exact ⟨rfl, Or.inl ⟨rfl, fun h => Or.inl h⟩⟩
  | leave i lq hq h hd =>
    rw [exitLoop_loops]
    refine ⟨_, getElem?_set_at w.loops i j _ lp hl, ?_⟩
    by_cases hij : i = j
    · subst hij
      rw [hq] at hl
      simp only [Option.some.injEq] at hl
      subst hl
      rw [if_pos rfl]
      exact ⟨rfl, Or.inl ⟨rfl, fun h0 => by simp at h0⟩⟩
    · rw [if_neg hij]
      exact ⟨rfl, Or.inl ⟨rfl, fun h => Or.inl h⟩⟩
  | wake h0 hh hz => exact ⟨lp, hl, rfl, Or.inl ⟨rfl, fun h => Or.inl h⟩⟩

/-- What a move at instant `t` does to the clock of an existing loop: `born` is
kept; `armed` becomes `t`, or is kept and the move is not the end of that
loop's invocation. -/
theorem clocksAfter_old (s : Clocked) (t : Nat) (a : Action) (j : Nat) (c : LoopClock)
    (hc : s.clocks[j]? = some c) :
    ∃ c', (clocksAfter s t a)[j]? = some c' ∧ c'.born = c.born ∧
      (c'.armed = t ∨ (c'.armed = c.armed ∧ a ≠ Action.jobEnds j)) := by
  cases a with
  | start =>
    refine ⟨c, ?_, rfl, Or.inr ⟨rfl, by simp⟩⟩
    simp only [clocksAfter]
    rw [List.getElem?_append_left (getElem?_lt _ _ _ hc)]
    exact hc
  | jobEnds i =>
    simp only [clocksAfter]
    by_cases hij : i = j
    · subst hij
      rw [hc]
      simp only
      refine ⟨_, getElem?_set_at s.clocks i i _ c hc, ?_⟩
      simp
    · cases hi : s.clocks[i]? with
      | none =>
        simp only
        exact ⟨c, hc, rfl, Or.inr ⟨rfl, by simp [hij]⟩⟩
      | some ci =>
        simp only
        refine ⟨_, getElem?_set_at s.clocks i j _ c hc, ?_⟩
        rw [if_neg hij]
        exact ⟨rfl, Or.inr ⟨rfl, by simp [hij]⟩⟩
  | addFunc spec cmd => exact ⟨c, hc, rfl, Or.inr ⟨rfl, by simp⟩⟩
  | stop => exact ⟨c, hc, rfl, Or.inr ⟨rfl, by simp⟩⟩
  | timerFires i => exact ⟨c, hc, rfl, Or.inr ⟨rfl, by simp⟩⟩
  | observeDone i => exact ⟨c, hc, rfl, Or.inr ⟨rfl, by simp⟩⟩
  | waiter h => exact ⟨c, hc, rfl, Or.inr ⟨rfl, by simp⟩⟩

theorem clocksAfter_length (s : Clocked) (t : Nat) (a : Action) (w1 : World)
    (hl : s.clocks.length = s.w.loops.length) (hs : act s.w a = some w1) :
    (clocksAfter s t a).length = w1.loops.length := by
  by_cases ha : noStart [a] = true
  · rw [act_loops_length s.w w1 a hs ha, ← hl]
    cases a with
    | start => simp [noStart] at ha
    | jobEnds i =>
      simp only [clocksAfter]
      cases s.clocks[i]? <;> simp
    | addFunc spec cmd => rfl
    | stop => rfl
    | timerFires i => rfl
    | observeDone i => rfl
    | waiter h => rfl
  · have hst : a = Action.start := by
      cases a <;> simp_all [noStart]
    subst hst
    simp only [act, Option.some.injEq] at hs
    subst hs
    rw [Start_eq]
    simp [clocksAfter, hl]

theorem tstep_some (s s' : Clocked) (t : Nat) (a : Option Action)
    (hs : tstep s t a = some s') :
    s.now ≤ t ∧ s'.now = t ∧
      ((a = none ∧ s'.w = s.w ∧ s'.clocks = s.clocks) ∨
        ∃ b, a = some b ∧ timerReady s t b = true ∧ step s.w b = some s'.w ∧
          s'.clocks = clocksAfter s t b) := by
  unfold tstep at hs
  split at hs
  · simp at hs
  · rename_i hlt
    refine ⟨by omega, ?_⟩
    cases a with
    | none =>
      simp only [Option.some.injEq] at hs
      subst hs
      exact ⟨rfl, Or.inl ⟨rfl, rfl, rfl⟩⟩
    | some b =>
      simp only at hs
      split at hs
      · rename_i hready
        cases hst : step s.w b with
        | none => simp [hst] at hs
        | some w1 =>
          simp only [hst, Option.some.injEq] at hs
          subst hs
          exact ⟨rfl, Or.inr ⟨b, rfl, hready, hst, rfl⟩⟩
      · simp at hs

theorem ClockInv_new : ClockInv clockedNew := by
  refine ⟨rfl, ?_⟩
  intro j lp c hl
  simp [clockedNew, New] at hl

theorem tstep_ClockInv (s s' : Clocked) (t : Nat) (a : Option Action)
    (hi : ClockInv s) (hs : tstep s t a = some s') : ClockInv s' := by
  obtain ⟨hle, hnow, hcase⟩ := tstep_some s s' t a hs
  obtain ⟨hlen, hpt⟩ := hi
  rcases hcase with ⟨-, hw, hc⟩ | ⟨b, -, hready, hstep, hc⟩
  · refine ⟨by rw [hw, hc]; exact hlen, ?_⟩
    intro j lp c hl hcl hd
    rw [hw] at hl
    rw [hc] at hcl
    obtain ⟨h1, h2⟩ := hpt j lp c hl hcl hd
    refine ⟨?_, h2⟩
    rw [hnow]
    have : (s.now : Int) ≤ (t : Int) := by exact_mod_cast hle
    omega
  · have hact := (step_some s.w s'.w b hstep).2
    refine ⟨by rw [hc]; exact clocksAfter_length s t b s'.w hlen hact, ?_⟩
    intro j lp' c' hl' hcl' hd
    rw [hnow]
    rw [hc] at hcl'
    have hlet : (s.now : Int) ≤ (t : Int) := by exact_mod_cast hle
    by_cases hj : j < s.w.loops.length
    · obtain ⟨lp, hl⟩ : ∃ lp, s.w.loops[j]? = some lp :=
        ⟨s.w.loops[j], List.getElem?_eq_getElem hj⟩
      obtain ⟨c, hcl⟩ : ∃ c, s.clocks[j]? = some c :=
        ⟨s.clocks[j], List.getElem?_eq_getElem (by omega)⟩
      obtain ⟨lq, hlq, hent, hmove⟩ := act_loop s.w s'.w b hact j lp hl
      rw [hl'] at hlq
      simp only [Option.some.injEq] at hlq
      subst hlq
      obtain ⟨cq, hcq, hborn, harmed⟩ := clocksAfter_old s t b j c hcl
      rw [hcl'] at hcq
      simp only [Option.some.injEq] at hcq
      subst hcq
      have hd0 : 0 < lp.entry.Spec := by rw [← hent]; exact hd
      obtain ⟨h1, h2⟩ := hpt j lp c hl hcl hd0
      rw [hent, hborn]
      rcases hmove with ⟨hf, hst⟩ | ⟨hb, hwait, hf, hrun⟩
      · rw [hf]
        refine ⟨by omega, fun hw' => ?_⟩
        rcases harmed with ha | ⟨ha, hne⟩
        · rw [ha]
          omega
        · rw [ha]
          rcases hst hw' with hw0 | hb
          · exact h2 hw0
          · exact absurd hb hne
      · subst hb
        have hr : (c.armed : Int) + lp.entry.Spec ≤ (t : Int) := by
          simpa [timerReady, hl, hcl] using hready
        have h3 := h2 hwait
        rw [hf]
        refine ⟨?_, fun hw' => ?_⟩
        · push_cast
          linarith
        · rw [hrun] at hw'
          simp at hw'
    · by_cases ha : noStart [b] = true
      · have := act_loops_length s.w s'.w b hact ha
        have := getElem?_lt _ _ _ hl'
        omega
      · have hst : b = Action.start := by
          cases b <;> simp_all [noStart]
        subst hst
        simp only [act, Option.some.injEq] at hact
        rw [← hact, Start_eq] at hl'
        simp only at hl'
        rw [List.getElem?_append_right (by omega)] at hl'
        have hmem := List.getElem?_mem hl'
        simp only [List.mem_map] at hmem
        obtain ⟨e, -, he⟩ := hmem
        simp only [clocksAfter] at hcl'
        rw [List.getElem?_append_right (by omega)] at hcl'
        have hc0 := List.eq_of_mem_replicate (List.getElem?_mem hcl')
        subst he
        subst hc0
        simp [freshLoop]

theorem trun_ClockInv (s s' : Clocked) (ts : List (Nat × Option Action))
    (hi : ClockInv s) (hr : trun s ts = some s') : ClockInv s' := by
  induction ts generalizing s with
  | nil =>
    simp only [trun, Option.some.injEq] at hr
    subst hr
    exact hi
  | cons x ts ih =>
    obtain ⟨t, a⟩ := x
    simp only [trun] at hr
    cases hs : tstep s t a with
    | none => simp [hs] at hr
    | some s1 =>
      simp only [hs] at hr
      exact ih s1 (tstep_ClockInv s s1 t a hi hs) hr

/-- The untimed state of a timed run is reached by the untimed run of its
moves. -/
theorem trun_run (s s' : Clocked) (ts : List (Nat × Option Action))
    (hr : trun s ts = some s') : run s.w (moves ts) = some s'.w := by
  induction ts generalizing s with
  | nil =>
    simp only [trun, Option.some.injEq] at hr
    subst hr
    rfl
  | cons x ts ih =>
    obtain ⟨t, a⟩ := x
    simp only [trun] at hr
    cases hs : tstep s t a with
    | none => simp [hs] at hr
    | some s1 =>
      simp only [hs] at hr
      obtain ⟨-, -, hcase⟩ := tstep_some s s1 t a hs
      rcases hcase with ⟨ha, hw, -⟩ | ⟨b, ha, -, hstep, -⟩
      · subst ha
        have := ih s1 hr
        rw [hw] at this
        simpa [moves] using this
      · subst ha
        have := ih s1 hr
        simp only [moves, List.filterMap_cons, run, hstep]
        exact this

/-! ## The claims -/

/-- C5: `AddFunc` accepts every interval (zero and negative ones too) and every
job: the new entries are the old ones, in order, followed by one entry holding
exactly that interval and that job; the length grows by one; the shutdown
signal and the completion barrier are untouched. -/
theorem AddFunc_appends (l : Looper) (spec : Int) (cmd : Job) :
    (AddFunc l spec cmd).entries = l.entries ++ [{ Spec := spec, Job := cmd }] ∧
    (AddFunc l spec cmd).entries.length = l.entries.length + 1 ∧
    (AddFunc l spec cmd).entries.take l.entries.length = l.entries ∧
    (AddFunc l spec cmd).entries[l.entries.length]? = some { Spec := spec, Job := cmd } ∧
    (AddFunc l spec cmd).done = l.done ∧
    (AddFunc l spec cmd).jobWaiter = l.jobWaiter := by
  simp [AddFunc]

/-- C6: on a Looper on which `Start` has not run yet, `Start` spawns one timing
loop per entry, in registration order: the loops are exactly the entries, each
WAITING with no firing, the `i`-th loop bound to the `i`-th entry; the barrier
grows by the number of entries; entries, shutdown signal, handles and log are
unchanged. -/
theorem Start_spawns_one_loop_per_entry (t : List Action) (w : World)
    (hn : noStart t = true) (hr : run New t = some w) :
    (Start w).loops =
        w.l.entries.map (fun e => { entry := e, state := LoopState.WAITING, fired := 0 }) ∧
    (Start w).loops.length = w.l.entries.length ∧
    (∀ (i : Nat) (e : Entry), w.l.entries[i]? = some e →
      (Start w).loops[i]? =
        some ({ entry := e, state := LoopState.WAITING, fired := 0 } : Loop)) ∧
    (Start w).l.jobWaiter = w.l.jobWaiter + w.l.entries.length ∧
    (Start w).l.jobWaiter = w.l.entries.length ∧
    (Start w).l.entries = w.l.entries ∧
    (Start w).l.done = w.l.done ∧
    (Start w).handles = w.handles ∧
    (Start w).log = w.log := by
  have hlen := run_noStart_loops New w t hn hr
  have hnil : w.loops = [] := List.eq_nil_of_length_eq_zero (by simpa [New] using hlen)
  have hinv := run_Inv New w t Inv_New hr
  have hw : w.l.jobWaiter = 0 := by
    have := hinv.2
    rw [hnil] at this
    simpa [liveLoops] using this
  have hloops : (Start w).loops =
      w.l.entries.map (fun e => { entry := e, state := LoopState.WAITING, fired := 0 }) := by
    rw [Start_eq, hnil]
    rfl
  refine ⟨hloops, ?_, ?_, ?_, ?_, ?_, ?_, ?_, ?_⟩
  · rw [hloops, List.length_map]
  · intro i e he
    rw [hloops, List.getElem?_map, he]
    rfl
  · rw [Start_eq]
  · rw [Start_eq, hw]
    simp
  · rw [Start_eq]
  · rw [Start_eq]
  · rw [Start_eq]
  · rw [Start_eq]

/-- C2: for every job of a RUNNING loop and every invocation: when the job
returns or panics, `runWithRecovery` returns normally; a panic is turned into
exactly one report (the panic value and at most `64 << 10` bytes of stack)
appended to the log, a normal return adds no report; in both cases the move
ends with that loop WAITING again and nothing else changed.  (A job that
neither returns nor panics but ends its goroutine with `runtime.Goexit()`
passes through `runWithRecovery` without a report and ends the loop.) -/
theorem runWithRecovery_contains_panic (w : World) (i : Nat) (lp : Loop)
    (hc : w.crashed = none) (hl : w.loops[i]? = some lp)
    (hr : lp.state = LoopState.RUNNING) :
    (runWithRecovery lp.entry.Job w.l.done lp.fired w.log).1 =
      (match lp.entry.Job w.l.done lp.fired with
       | Outcome.returned => Outcome.returned
       | Outcome.panicked _ _ => Outcome.returned
       | Outcome.exited => Outcome.exited) ∧
    (runWithRecovery lp.entry.Job w.l.done lp.fired w.log).2 =
      (match lp.entry.Job w.l.done lp.fired with
       | Outcome.returned => w.log
       | Outcome.panicked r stack => w.log ++ [{ r := r, buf := stack.take 65536 }]
       | Outcome.exited => w.log) ∧
    step w (Action.jobEnds i) =
      (match lp.entry.Job w.l.done lp.fired with
       | Outcome.returned =>
         some { w with loops := w.loops.set i { lp with state := LoopState.WAITING } }
       | Outcome.panicked r stack =>
         some { w with
                loops := w.loops.set i { lp with state := LoopState.WAITING }
                log := w.log ++ [{ r := r, buf := stack.take 65536 }] }
       | Outcome.exited => some (exitLoop w i lp none)) := by
  cases hj : lp.entry.Job w.l.done lp.fired with
  | returned =>
    have hs := step_jobEnds w i lp hc hl hr (by simp [hj])
    rw [runWithRecovery_eq, hj] at hs ⊢
    exact ⟨rfl, rfl, hs⟩
  | panicked r stack =>
    have hs := step_jobEnds w i lp hc hl hr (by simp [hj])
    rw [runWithRecovery_eq, hj] at hs ⊢
    exact ⟨rfl, rfl, hs⟩
  | exited =>
    have hs := step_jobEnds_exited w i lp hc hl hr hj
    rw [runWithRecovery_eq, hj]
    exact ⟨rfl, rfl, hs⟩

/-- C7: when the job of a RUNNING loop panics, the move that ends the
invocation leaves every other timing loop as it was, puts the failing loop
back to WAITING (not TERMINATED) with its firing count unchanged, changes
neither the Looper nor the handles, and no panic escapes: the process is not
crashed and the caller can still call `Stop`. -/
theorem panic_is_isolated (w : World) (i : Nat) (lp : Loop) (r : String) (stack : List Nat)
    (hc : w.crashed = none) (hl : w.loops[i]? = some lp)
    (hr : lp.state = LoopState.RUNNING)
    (hp : lp.entry.Job w.l.done lp.fired = Outcome.panicked r stack) :
    ∃ w', step w (Action.jobEnds i) = some w' ∧
      (∀ j, j ≠ i → w'.loops[j]? = w.loops[j]?) ∧
      w'.loops[i]? = some { lp with state := LoopState.WAITING } ∧
      w'.loops.length = w.loops.length ∧
      w'.l = w.l ∧ w'.handles = w.handles ∧
      w'.log = w.log ++ [{ r := r, buf := stack.take size }] ∧
      w'.crashed = none ∧
      step w' Action.stop = some (Stop w').1 := by
  have hi : i < w.loops.length := by
    by_contra hn
    rw [List.getElem?_eq_none (by omega)] at hl
    simp at hl
  refine ⟨_, step_jobEnds w i lp hc hl hr (by simp [hp]), ?_, ?_, ?_, rfl, rfl, ?_,
    hc, ?_⟩
  · intro j hj
    simp [List.getElem?_set_ne (Ne.symm hj)]
  · simp [List.getElem?_set_self, hi]
  · simp
  · simp [runWithRecovery, hp]
  · rw [step_live _ _ (by exact hc)]
    rfl

/-- C9: in every state reachable from `New` the barrier count is the number of
spawned timing loops that have not terminated, and it is not negative; every
further move changes it by `barrierDelta` (plus one per entry for `Start`,
minus one for the exit of a loop, nothing otherwise); a WAITING loop that
sees the shutdown signal exits, decrementing it by exactly one, and a
TERMINATED loop makes no further move, so it never decrements twice. -/
theorem barrier_counts_live_loops (t : List Action) (w : World) (hr : run New t = some w) :
    w.l.jobWaiter = (liveLoops w.loops : Int) ∧
    0 ≤ w.l.jobWaiter ∧
    w.crashed = none ∧
    (∀ a w', step w a = some w' →
      w'.l.jobWaiter = w.l.jobWaiter + barrierDelta w a ∧ 0 ≤ w'.l.jobWaiter) ∧
    (∀ i lp, w.loops[i]? = some lp → lp.state = LoopState.WAITING → w.l.done = true →
      ∃ w', step w (Action.observeDone i) = some w' ∧
        w'.l.jobWaiter = w.l.jobWaiter - 1 ∧
        w'.loops[i]? = some { lp with state := LoopState.TERMINATED }) ∧
    (∀ i lp, w.loops[i]? = some lp → lp.state = LoopState.TERMINATED →
      step w (Action.observeDone i) = none ∧ step w (Action.timerFires i) = none ∧
        step w (Action.jobEnds i) = none) := by
  have hinv := run_Inv New w t Inv_New hr
  refine ⟨hinv.2, ?_, hinv.1, ?_, ?_, ?_⟩
  · rw [hinv.2]
    exact Int.natCast_nonneg _
  · intro a w' hs
    have hinv' := step_Inv w w' a hinv hs
    refine ⟨act_jobWaiter w w' a hinv (step_some w w' a hs).2, ?_⟩
    rw [hinv'.2]
    exact Int.natCast_nonneg _
  · intro i lp hl hst hd
    have hi : i < w.loops.length := by
      by_contra hn
      rw [List.getElem?_eq_none (by omega)] at hl
      simp at hl
    refine ⟨exitLoop w i lp none, ?_, ?_, ?_⟩
    · rw [step_live w _ hinv.1]
      simp [act, startJob, observeDone, hl, hst, hd]
    · rw [exitLoop_eq w i lp hinv hl (by simp [hst])]
    · rw [exitLoop_loops]
      simp [List.getElem?_set_self, hi]
  · intro i lp hl hst
    rw [step_live w _ hinv.1, step_live w _ hinv.1, step_live w _ hinv.1]
    simp [act, startJob, observeDone, timerFires, jobEnds, hl, hst]

/-- C1 (as amended): once `Start` has run, and as long as it is not called
again, a completion handle returned by a later `Stop` that is signaled
certifies that every timing loop is TERMINATED; in particular none is RUNNING
a job and none is WAITING. -/
theorem signaled_handle_means_all_terminated (t1 t2 : List Action) (w0 w : World) (h : Nat)
    (h1 : run New t1 = some w0) (hn : noStart t2 = true)
    (h2 : run (Start w0) t2 = some w)
    (hk : w0.handles.length ≤ h) (hs : w.handles[h]? = some true) :
    ∀ lp ∈ w.loops, lp.state = LoopState.TERMINATED := by
  have hi0 := run_Inv New w0 t1 Inv_New h1
  have hi1 : Inv (Start w0) := by
    refine step_Inv w0 (Start w0) Action.start hi0 ?_
    rw [step_live w0 _ hi0.1]
    rfl
  have hbase : ∀ h', w0.handles.length ≤ h' → (Start w0).handles[h']? = some true →
      liveLoops (Start w0).loops = 0 := by
    intro h' hk' hh'
    rw [Start_eq] at hh'
    simp only at hh'
    rw [List.getElem?_eq_none hk'] at hh'
    simp at hh'
  have := run_signaled (Start w0) w t2 w0.handles.length hi1 hn hbase h2 h hk hs
  exact (liveLoops_eq_zero w.loops).mp this

/-- C1 fails as stated: after `AddFunc`, `Stop`, the waiter of that `Stop` and
then `Start`, the handle returned by `Stop` is signaled while the timing loop
spawned by `Start` is WAITING, not TERMINATED. -/
theorem signaled_handle_before_start :
    (run New [Action.addFunc 5 okJob, Action.stop, Action.waiter 0, Action.start]).map
      (fun w => (w.handles[0]?, states w)) = some (some true, [LoopState.WAITING]) := by
  decide

/-- C3: on a Looper without entries, and on a Looper on which `Start` was never
called, there is no timing loop and the barrier count is zero, so the waiter
goroutine that `Stop` spawns gets past `Wait()` at once: its one move is
enabled in the state `Stop` leaves and signals the handle `Stop` returns,
while no timing loop exists whose move could be needed. -/
theorem stop_without_loops (t : List Action) (w : World) (hr : run New t = some w)
    (h0 : w.l.entries = [] ∨ noStart t = true) :
    w.loops = [] ∧ w.l.jobWaiter = 0 ∧
    step (Stop w).1 (Action.waiter (Stop w).2) =
      some { (Stop w).1 with handles := (Stop w).1.handles.set (Stop w).2 true } ∧
    ((Stop w).1.handles.set (Stop w).2 true)[(Stop w).2]? = some true ∧
    (∀ i, step (Stop w).1 (Action.timerFires i) = none ∧
      step (Stop w).1 (Action.jobEnds i) = none ∧
      step (Stop w).1 (Action.observeDone i) = none) := by
  have hinv := run_Inv New w t Inv_New hr
  have hnil : w.loops = [] := run_no_loops New w t rfl hr h0
  have hw : w.l.jobWaiter = 0 := by
    have := hinv.2
    rw [hnil] at this
    simpa [liveLoops] using this
  have hget : (Stop w).1.handles[(Stop w).2]? = some false := by
    simp [Stop]
  have hc : (Stop w).1.crashed = none := hinv.1
  have hl : (Stop w).1.loops = [] := hnil
  refine ⟨hnil, hw, ?_, ?_, ?_⟩
  · rw [step_live _ _ hc]
    simp only [act, waiter, hget]
    simp [Stop, hw]
  · simp [Stop]
  · intro i
    rw [step_live _ _ hc, step_live _ _ hc, step_live _ _ hc]
    simp [act, startJob, timerFires, jobEnds, observeDone, hl]

/-- C8 (as amended): in every timed run from `New`, whatever the jobs do and
however long each invocation takes, a timing loop with interval `d > 0` that
was spawned at `born` has fired, at instant `now`, at most
`(now - born) / d` times, hence at most `(now - born) / d + 1` times: each
firing is preceded by a full interval.  No lower bound is stated. -/
theorem firings_at_most_elapsed_intervals (ts : List (Nat × Option Action)) (s : Clocked)
    (i : Nat) (lp : Loop) (c : LoopClock)
    (hr : trun clockedNew ts = some s) (hl : s.w.loops[i]? = some lp)
    (hc : s.clocks[i]? = some c) (hd : 0 < lp.entry.Spec) :
    run New (moves ts) = some s.w ∧
    (c.born : Int) ≤ (s.now : Int) ∧
    (lp.fired : Int) * lp.entry.Spec ≤ (s.now : Int) - (c.born : Int) ∧
    (lp.fired : Int) ≤ ((s.now : Int) - (c.born : Int)) / lp.entry.Spec ∧
    (lp.fired : Int) ≤ ((s.now : Int) - (c.born : Int)) / lp.entry.Spec + 1 := by
  have hinv := trun_ClockInv clockedNew s ts ClockInv_new hr
  obtain ⟨h1, -⟩ := hinv.2 i lp c hl hc hd
  have hf : (0 : Int) ≤ (lp.fired : Int) * lp.entry.Spec :=
    Int.mul_nonneg (Int.natCast_nonneg _) (Int.le_of_lt hd)
  have h2 : (lp.fired : Int) * lp.entry.Spec ≤ (s.now : Int) - (c.born : Int) := by omega
  have h3 : (lp.fired : Int) ≤ ((s.now : Int) - (c.born : Int)) / lp.entry.Spec :=
    (Int.le_ediv_iff_mul_le hd).mpr h2
  exact ⟨trun_run clockedNew s ts hr, by omega, h2, h3, by omega⟩

/-- C8 fails as stated: with an interval of 10 and a job that takes 30 at every
invocation, the loop spawned at instant 0 and not cancelled has fired 3 times
at instant 100, fewer than `100 / 10 - 1 = 9`. -/
theorem slow_job_fires_less :
    (trun clockedNew slowSchedule).map
      (fun s => (s.now, s.w.l.done, firedCounts s.w, s.clocks.map (fun c => c.born))) =
      some (100, false, [3], [0]) ∧
    (3 : Int) < (100 - 0) / 10 - 1 := by
  decide

/-- C4, the failing run: `Stop` is called at instant 1, when neither loop has
fired and neither interval (5 and 7) has elapsed since `Start` at instant 0;
at instant 9 the timer case of the second loop is taken although `ctx.Done()`
is closed, and its job is invoked.  The shutdown still completes: once that
invocation is over both loops exit and the handle of the `Stop` is signaled,
the second loop having fired once. -/
theorem job_invoked_after_stop :
    (trun clockedNew (lateSchedule.take 4)).map
      (fun s => (s.now, s.w.l.done, states s.w, firedCounts s.w)) =
      some (1, true, [LoopState.WAITING, LoopState.WAITING], [0, 0]) ∧
    (trun clockedNew lateSchedule).map
      (fun s => (s.now, s.w.l.done, states s.w, firedCounts s.w)) =
      some (9, true, [LoopState.WAITING, LoopState.RUNNING], [0, 1]) ∧
    (trun clockedNew (lateSchedule ++ lateDrain)).map
      (fun s => (s.w.handles, states s.w, firedCounts s.w)) =
      some ([true], [LoopState.TERMINATED, LoopState.TERMINATED], [0, 1]) := by
  decide

/-- C10, the failing run: the first job calls `runtime.Goexit()`; the move that
ends its first invocation takes its loop from RUNNING to TERMINATED and
decrements the barrier from 2 to 1, while the shutdown signal is not set,
nothing is logged and nothing crashes. -/
theorem goexit_ends_running_loop :
    (run New goexitSchedule).map (fun w => (states w, w.l.done, w.l.jobWaiter)) =
      some ([LoopState.RUNNING, LoopState.WAITING], false, 2) ∧
    (run New (goexitSchedule ++ [Action.jobEnds 0])).map
      (fun w => (states w, w.l.done, w.l.jobWaiter, w.log, w.crashed)) =
      some ([LoopState.TERMINATED, LoopState.WAITING], false, 1, [], none) :=
  ⟨rfl, rfl⟩

/-! ## Concrete runs and witnesses -/

theorem run_demoSetup : run New demoSetup = some demoRegistered := rfl

theorem run_demoShutdown : run (Start demoRegistered) demoShutdown = some demoDrained := rfl

theorem run_demoRunning :
    run New (demoSetup ++ [Action.start, Action.timerFires 0]) = some demoRunning := rfl

/-- Witness of C6 on `demoRegistered`: two entries, two loops, both WAITING. -/
theorem Start_spawns_one_loop_per_entry_witness :
    noStart demoSetup = true ∧ run New demoSetup = some demoRegistered ∧
    states (Start demoRegistered) = [LoopState.WAITING, LoopState.WAITING] ∧
    (Start demoRegistered).l.jobWaiter = 2 := by
  have h := Start_spawns_one_loop_per_entry demoSetup demoRegistered rfl run_demoSetup
  refine ⟨rfl, run_demoSetup, ?_, ?_⟩
  · rw [states, h.1]
    rfl
  · rw [h.2.2.2.2.1]
    rfl

/-- Witness of C2 on `demoRunning`: the panic of the first job is logged once
and the loop is WAITING again. -/
theorem runWithRecovery_contains_panic_witness :
    demoRunning.crashed = none ∧
    (runWithRecovery badJob false 1 []).1 = Outcome.returned ∧
    (step demoRunning (Action.jobEnds 0)).map (fun w => (states w, w.log)) =
      some ([LoopState.WAITING, LoopState.WAITING], [{ r := "boom", buf := [1, 2, 3] }]) := by
  have h := runWithRecovery_contains_panic demoRunning 0
    { entry := { Spec := 5, Job := badJob }, state := LoopState.RUNNING, fired := 1 } rfl rfl rfl
  refine ⟨rfl, h.1, ?_⟩
  rw [h.2.2]
  rfl

/-- Witness of C7 on `demoRunning`: the second loop is untouched and nothing
crashes. -/
theorem panic_is_isolated_witness :
    badJob false 1 = Outcome.panicked "boom" [1, 2, 3] ∧
    ∃ w', step demoRunning (Action.jobEnds 0) = some w' ∧
      w'.loops[1]? = demoRunning.loops[1]? ∧ w'.crashed = none := by
  obtain ⟨w', h1, h2, -, -, -, -, -, h8, -⟩ := panic_is_isolated demoRunning 0
    { entry := { Spec := 5, Job := badJob }, state := LoopState.RUNNING, fired := 1 }
    "boom" [1, 2, 3] rfl rfl rfl rfl
  exact ⟨rfl, w', h1, h2 1 (by decide), h8⟩

/-- Witness of C9 on `demoRunning`: the barrier counts the two live loops. -/
theorem barrier_counts_live_loops_witness :
    run New (demoSetup ++ [Action.start, Action.timerFires 0]) = some demoRunning ∧
    demoRunning.l.jobWaiter = (liveLoops demoRunning.loops : Int) ∧
    0 ≤ demoRunning.l.jobWaiter :=
  ⟨run_demoRunning,
    (barrier_counts_live_loops _ demoRunning run_demoRunning).1,
    (barrier_counts_live_loops _ demoRunning run_demoRunning).2.1⟩

/-- Witness of C1 (as amended) on `demoDrained`. -/
theorem signaled_handle_means_all_terminated_witness :
    noStart demoShutdown = true ∧ demoDrained.handles[0]? = some true ∧
    (∀ lp ∈ demoDrained.loops, lp.state = LoopState.TERMINATED) :=
  ⟨rfl, rfl,
    signaled_handle_means_all_terminated demoSetup demoShutdown demoRegistered demoDrained 0
      run_demoSetup rfl run_demoShutdown (Nat.le_refl 0) rfl⟩

/-- Witness of C3 on `demoRegistered`, on which `Start` was not called. -/
theorem stop_without_loops_witness :
    noStart demoSetup = true ∧ demoRegistered.loops = [] ∧ demoRegistered.l.jobWaiter = 0 ∧
    (step (Stop demoRegistered).1 (Action.waiter 0)).map (fun w => w.handles) = some [true] := by
  have h := stop_without_loops demoSetup demoRegistered run_demoSetup (Or.inr rfl)
  refine ⟨rfl, h.1, h.2.1, ?_⟩
  rw [show (0 : Nat) = (Stop demoRegistered).2 from rfl, h.2.2.1]
  rfl

theorem trun_slowSchedule : trun clockedNew slowSchedule = some slowEnd := rfl

/-- Witness of C8 (as amended) on `slowEnd`: three firings within 100. -/
theorem firings_at_most_elapsed_intervals_witness :
    trun clockedNew slowSchedule = some slowEnd ∧ firedCounts slowEnd.w = [3] ∧
    ((3 : Nat) : Int) ≤ (((100 : Nat) : Int) - ((0 : Nat) : Int)) / (10 : Int) :=
  ⟨trun_slowSchedule, rfl,
    (firings_at_most_elapsed_intervals slowSchedule slowEnd 0
      { entry := { Spec := 10, Job := okJob }, state := LoopState.RUNNING, fired := 3 }
      { born := 0, armed := 82 } trun_slowSchedule rfl rfl (by decide)).2.2.2.1⟩

end GoLooper
